import Mathlib

/-!
Shallow embedding of the connection and state-synchronization core of the
ppg-cli desktop client (Rust sources under `src/linux/src/`), together with
theorems settling the specification claims about it.

The embedding covers:
* `models/manifest.rs` — the `Manifest` data model and its agent-counting
  helpers (`HashMap`s are modelled as association lists; the helpers only
  iterate over values, so ordering is irrelevant);
* `api/websocket.rs` — the `WsManager::connect` reconnect loop: its
  exponential backoff, the events it emits per iteration, the read loop
  over inbound frames, `handle_message`, the keepalive task body, and the
  URL construction;
* `state.rs` — `AppState` (manifest/connection-state store) and the
  once-only claiming of the event / toast channel receivers in `Services`;
* `api/client.rs` — `PpgClient::test_connection` over the outcome of the
  underlying `health()` call.

Effectful library calls (socket reads, serde decoding, channel sends) are
modelled by their results: the read loop is a function of the list of items
yielded by `read.next()`, with the serde decode of each `Message::Text`
payload represented as `Option ServerEvent` (`none` = decode failure), and
"events emitted" is the list of values pushed into the `tx` channel.
-/

namespace Ppg

/-! ## Data model: `models/manifest.rs` -/

/-- Agent lifecycle status (`AgentStatus` in `models/manifest.rs`). -/
inductive AgentStatus
  | Running
  | Idle
  | Exited
  | Gone
  deriving DecidableEq, Repr

/-- Worktree lifecycle status (`WorktreeStatus` in `models/manifest.rs`). -/
inductive WorktreeStatus
  | Active
  | Merging
  | Merged
  | Failed
  | Cleaned
  deriving DecidableEq, Repr

/-- `AgentEntry` in `models/manifest.rs`. -/
structure AgentEntry where
  id : String
  name : String
  agent_type : String
  status : AgentStatus
  tmux_target : String
  prompt : String
  started_at : String
  exit_code : Option Int
  session_id : Option String
  deriving DecidableEq, Repr

/-- `WorktreeEntry` in `models/manifest.rs`; the `agents` HashMap is an
association list from agent id to entry. -/
structure WorktreeEntry where
  id : String
  name : String
  path : String
  branch : String
  base_branch : String
  status : WorktreeStatus
  tmux_window : String
  pr_url : Option String
  agents : List (String × AgentEntry)
  created_at : String
  merged_at : Option String
  deriving DecidableEq, Repr

/-- `Manifest` in `models/manifest.rs`; the `worktrees` HashMap is an
association list from worktree id to entry. -/
structure Manifest where
  version : Nat
  project_root : String
  session_name : String
  worktrees : List (String × WorktreeEntry)
  created_at : String
  updated_at : String
  deriving DecidableEq, Repr

/-- `Manifest::count_agents_by_status`: worktree values, flat-mapped to agent
values, filtered by status, counted. -/
def Manifest.count_agents_by_status (m : Manifest) (status : AgentStatus) : Nat :=
  (((m.worktrees.map Prod.snd).flatMap fun wt => wt.agents.map Prod.snd).filter
    fun a => a.status == status).length

/-- `Manifest::all_agents`: all agents as (worktree id, agent) pairs. -/
def Manifest.all_agents (m : Manifest) : List (String × AgentEntry) :=
  m.worktrees.flatMap fun p => (p.2.agents.map Prod.snd).map fun a => (p.1, a)

/-! ## Event types: `api/websocket.rs` -/

/-- `WsEvent`: events dispatched from the WebSocket task to the GTK main
thread. -/
inductive WsEvent
  | Connected
  | Disconnected
  | ManifestUpdated (manifest : Manifest)
  | AgentStatusChanged (worktree_id : String) (agent_id : String)
      (status : AgentStatus) (worktree_status : WorktreeStatus)
  | TerminalOutput (agent_id : String) (data : String)
  | Error (msg : String)
  deriving DecidableEq, Repr

/-- `ServerEvent`: inbound server events, after JSON decoding. -/
inductive ServerEvent
  | Pong
  | ManifestUpdated (manifest : Manifest)
  | AgentStatus (worktree_id : String) (agent_id : String)
      (status : AgentStatus) (worktree_status : WorktreeStatus)
  | TerminalOutput (agent_id : String) (data : String)
  | Error (code : String) (message : String)
  deriving DecidableEq, Repr

/-- `ClientCommand`: outbound client commands (all currently dead code in the
source). -/
inductive ClientCommand
  | Ping
  | TerminalSubscribe (agent_id : String)
  | TerminalUnsubscribe (agent_id : String)
  | TerminalInput (agent_id : String) (data : String)
  deriving DecidableEq, Repr

/-- Events sent into the `tx` channel by `handle_message` for one
successfully decoded `ServerEvent`. -/
def handle_message (event : ServerEvent) : List WsEvent :=
  match event with
  | .Pong => []
  | .ManifestUpdated manifest => [.ManifestUpdated manifest]
  | .AgentStatus worktree_id agent_id status worktree_status =>
      [.AgentStatusChanged worktree_id agent_id status worktree_status]
  | .TerminalOutput agent_id data => [.TerminalOutput agent_id data]
  | .Error code message => [.Error (code ++ ": " ++ message)]

/-! ## The read loop of `WsManager::connect` -/

/-- One item yielded by `read.next()` in the read loop. The serde decode of a
`Message::Text` payload is modelled as already resolved: `text (some ev)` is a
text frame that decodes to `ev`, `text none` is a text frame on which
`serde_json::from_str` fails (`handle_message` returns `Err`). `binaryOrOther`
covers the `_ => {}` arm (binary, pong, raw frames). -/
inductive WsMessage
  | text (decoded : Option ServerEvent)
  | ping (data : String)
  | close
  | binaryOrOther
  | transportErr (desc : String)
  deriving DecidableEq, Repr

/-- Why the read loop stopped. -/
inductive ReadEnd
  | exhausted
  | closedByServer
  | errored (desc : String)
  deriving DecidableEq, Repr

/-- Observable outcome of running the read loop: domain events sent to `tx`,
number of decode-failure warnings logged, and why the loop stopped. -/
structure ReadResult where
  events : List WsEvent
  warnings : Nat
  ending : ReadEnd
  deriving DecidableEq, Repr

/-- The `while let Some(msg) = read.next().await` loop of
`WsManager::connect`, as a function of the inbound items (run flag held true
throughout). A decode failure logs a warning and continues; `Ping` frames are
answered with an outbound `Pong` (no domain event); `Close` and transport
errors break the loop. -/
def readLoop : List WsMessage → ReadResult
  | [] => ⟨[], 0, .exhausted⟩
  | .text (some ev) :: rest =>
      let r := readLoop rest
      ⟨handle_message ev ++ r.events, r.warnings, r.ending⟩
  | .text none :: rest =>
      let r := readLoop rest
      ⟨r.events, r.warnings + 1, r.ending⟩
  | .ping _ :: rest => readLoop rest
  | .binaryOrOther :: rest => readLoop rest
  | .close :: _ => ⟨[], 0, .closedByServer⟩
  | .transportErr desc :: _ => ⟨[], 0, .errored desc⟩

/-! ## One iteration of the outer reconnect loop -/

/-- Outcome of one `connect_async(&url).await`: a failed connection attempt,
or an opened stream that then yields the given items. -/
inductive AttemptOutcome
  | connectFailed (desc : String)
  | opened (msgs : List WsMessage)
  deriving DecidableEq, Repr

/-- Whether the attempt opened a stream (the `Ok` arm of the `match`). -/
def AttemptOutcome.success : AttemptOutcome → Bool
  | .opened _ => true
  | .connectFailed _ => false

/-- Events sent to `tx` during one iteration of the `while running` loop:
on `Ok`, `Connected`, then the read-loop events, then `Disconnected` after
the read loop ends; on `Err`, a single formatted `Error` event. -/
def iterEvents (o : AttemptOutcome) : List WsEvent :=
  match o with
  | .connectFailed desc => [.Error ("Connection failed: " ++ desc)]
  | .opened msgs => .Connected :: (readLoop msgs).events ++ [.Disconnected]

/-- The sleep performed at the end of one loop iteration, given the backoff
value at the top of the iteration: a successful connection first resets
`backoff_ms` to 1000. -/
def loopDelay (backoff_ms : Nat) (success : Bool) : Nat :=
  if success then 1000 else backoff_ms

/-- The backoff value entering the next iteration:
`backoff_ms = (backoff_ms * 2).min(max_backoff_ms)` with
`max_backoff_ms = 30_000`, applied after the sleep. -/
def loopNextBackoff (backoff_ms : Nat) (success : Bool) : Nat :=
  min (loopDelay backoff_ms success * 2) 30000

/-- One full iteration of the `while running` loop: the events emitted, the
delay slept before the next attempt (`none` when the run flag was observed
cleared, in which case the loop breaks before sleeping), and the backoff
value carried forward. -/
def loopIter (backoff_ms : Nat) (o : AttemptOutcome) (running_after : Bool) :
    List WsEvent × Option Nat × Nat :=
  if running_after then
    (iterEvents o, some (loopDelay backoff_ms o.success),
      loopNextBackoff backoff_ms o.success)
  else
    (iterEvents o, none, loopDelay backoff_ms o.success)

/-- The sequence of backoff sleeps performed by the loop across consecutive
iterations whose attempt outcomes are given by `outcomes` (`true` = the
attempt opened a stream that later ended, `false` = the attempt failed),
with the run flag held true. -/
def delaysGo (backoff_ms : Nat) : List Bool → List Nat
  | [] => []
  | s :: rest => loopDelay backoff_ms s :: delaysGo (loopNextBackoff backoff_ms s) rest

/-- The loop's sleep sequence starting from the initial
`let mut backoff_ms: u64 = 1000`. -/
def delaysOf (outcomes : List Bool) : List Nat :=
  delaysGo 1000 outcomes

/-- Number of trailing failed attempts in an outcome sequence. -/
def trailingFails (outcomes : List Bool) : Nat :=
  (outcomes.reverse.takeWhile fun s => !s).length

/-- The number N of consecutive attempts that failed or ended without an
intervening success, counted at the end of `outcomes`: the trailing failures
plus the stream-opening attempt that started the streak, or the whole
sequence when no attempt ever succeeded. -/
def reconnectStreak (outcomes : List Bool) : Nat :=
  if true ∈ outcomes then trailingFails outcomes + 1 else outcomes.length

/-! ## The keepalive task of `WsManager::connect` -/

/-- The interval, in seconds, of the keepalive task spawned for each open
connection (`tokio::time::interval(std::time::Duration::from_secs(30))`). -/
def ping_interval_secs : Nat := 30

/-- One tick of the keepalive task spawned inside the `Ok` arm of
`WsManager::connect` (the task commented `Ping keepalive every 30s`): after
`interval.tick()`, the body only loads the run flag, breaking when it is
false. Returns the outbound frame sent on this tick and whether the task
keeps looping. -/
def pingTaskTick (running : Bool) : Option ClientCommand × Bool :=
  (none, running)

/-! ## URL construction in `WsManager::connect` -/

/-- Fuel-indexed worker for `str::replace`: replaces each leftmost,
non-overlapping occurrence of `pat` by `rep`. One unit of fuel is spent per
step, and every step consumes at least one character of the input when `pat`
is non-empty, so `fuel = s.length` always suffices. -/
def replaceAllGo (pat rep : List Char) : Nat → List Char → List Char
  | _, [] => []
  | 0, s => s
  | fuel + 1, c :: s =>
      if pat ≠ [] ∧ pat.isPrefixOf (c :: s) then
        rep ++ replaceAllGo pat rep fuel ((c :: s).drop pat.length)
      else
        c :: replaceAllGo pat rep fuel s

/-- Rust `str::replace(pat, rep)` on `s` (for non-empty `pat`). -/
def replaceAll (pat rep s : List Char) : List Char :=
  replaceAllGo pat rep s.length s

/-- Rust `str::trim_end_matches('/')`: remove every trailing slash. -/
def trim_end_matches_slash (s : List Char) : List Char :=
  (s.reverse.dropWhile fun c => c == '/').reverse

/-- The stream URL built by `WsManager::connect` from `base_url` and the
optional token: `base_url.replace("http://", "ws://").replace("https://",
"wss://")`, then trailing slashes trimmed and `/api/events` appended, then
`?token=<t>` appended when a token is configured. -/
def connectUrl (base_url : List Char) (token : Option (List Char)) : List Char :=
  let ws_url :=
    replaceAll ("https://".toList) ("wss://".toList)
      (replaceAll ("http://".toList) ("ws://".toList) base_url)
  let ws_url := trim_end_matches_slash ws_url ++ "/api/events".toList
  match token with
  | some t => ws_url ++ "?token=".toList ++ t
  | none => ws_url

/-- The claim's reading of the URL construction, for comparison: only a
leading `http://` scheme is replaced by `ws://` (a leading `https://` by
`wss://`), then trailing slashes are trimmed, `/api/events` is appended and
`?token=<t>` is appended when a token is configured. -/
def schemeUpgraded (base_url : List Char) : List Char :=
  if ("http://".toList).isPrefixOf base_url then
    "ws://".toList ++ base_url.drop 7
  else if ("https://".toList).isPrefixOf base_url then
    "wss://".toList ++ base_url.drop 8
  else
    base_url

/-- Stream URL as described by the claim (scheme-only replacement). -/
def streamUrlClaim (base_url : List Char) (token : Option (List Char)) : List Char :=
  let u := trim_end_matches_slash (schemeUpgraded base_url) ++ "/api/events".toList
  match token with
  | some t => u ++ "?token=".toList ++ t
  | none => u

/-! ## Shared application state: `state.rs` -/

/-- `ConnectionState` in `state.rs`. -/
inductive ConnectionState
  | Disconnected
  | Connecting
  | Connected
  | Reconnecting
  | Error (msg : String)
  deriving DecidableEq, Repr

/-- `Appearance` in `models/settings.rs`. -/
inductive Appearance
  | System
  | Dark
  | Light
  deriving DecidableEq, Repr

/-- `AppSettings` in `models/settings.rs`. -/
structure AppSettings where
  server_url : String
  bearer_token : Option String
  font_family : String
  font_size : Nat
  appearance : Appearance
  deriving DecidableEq, Repr

/-- `AppStateInner` in `state.rs`: the value guarded by the `RwLock`. Lock
operations are modelled by plain state passing: every mutation in the source
is a whole-value replacement performed under the write lock. -/
structure AppStateInner where
  manifest : Option Manifest
  connection : ConnectionState
  settings : AppSettings
  deriving DecidableEq, Repr

/-- `AppState::new`. -/
def AppState.new (settings : AppSettings) : AppStateInner :=
  { manifest := none, connection := .Disconnected, settings := settings }

/-- `AppState::manifest`: read the current manifest (a clone of the stored
value). -/
def AppState.manifest (s : AppStateInner) : Option Manifest :=
  s.manifest

/-- `AppState::set_manifest`: replace the stored manifest wholesale. -/
def AppState.set_manifest (s : AppStateInner) (m : Manifest) : AppStateInner :=
  { s with manifest := some m }

/-- `AppState::connection_state`. -/
def AppState.connection_state (s : AppStateInner) : ConnectionState :=
  s.connection

/-- `AppState::set_connection_state`. -/
def AppState.set_connection_state (s : AppStateInner) (state : ConnectionState) :
    AppStateInner :=
  { s with connection := state }

/-! ## Once-only receiver claiming: `Services` in `state.rs` -/

/-- The receiver-holding part of `Services`: `ws_rx` and `toast_rx` are each
an `Option`-wrapped receiver behind a lock; `α` and `β` stand for the two
receiver types. -/
structure SvcChannels (α β : Type) where
  ws_rx : Option α
  toast_rx : Option β

/-- `Services::take_ws_rx`: `self.ws_rx.write().unwrap().take()` — returns
the stored receiver (if any) and leaves `none` behind. -/
def take_ws_rx {α β : Type} (s : SvcChannels α β) : Option α × SvcChannels α β :=
  (s.ws_rx, { s with ws_rx := none })

/-- `Services::take_toast_rx`: `self.toast_rx.write().unwrap().take()`. -/
def take_toast_rx {α β : Type} (s : SvcChannels α β) : Option β × SvcChannels α β :=
  (s.toast_rx, { s with toast_rx := none })

/-- A call to one of the two take operations. -/
inductive TakeOp
  | ws
  | toast
  deriving DecidableEq, Repr

/-- Run a sequence of take calls against the channel state, collecting each
call's result (`Sum.inl` for `take_ws_rx`, `Sum.inr` for `take_toast_rx`). -/
def runTakes {α β : Type} (s : SvcChannels α β) : List TakeOp → List (Option α ⊕ Option β)
  | [] => []
  | .ws :: rest =>
      let r := take_ws_rx s
      .inl r.1 :: runTakes r.2 rest
  | .toast :: rest =>
      let r := take_toast_rx s
      .inr r.1 :: runTakes r.2 rest

/-! ## Transport client: `api/client.rs` -/

/-- `HealthResponse` in `api/client.rs`. -/
structure HealthResponse where
  status : String
  deriving DecidableEq, Repr

/-- `PpgClient::test_connection`, as a function of the outcome of the
underlying `self.health().await` call (`Except` models `anyhow::Result`):
`Ok(h) => Ok(h.status == "ok")`, `Err(_) => Ok(false)`. -/
def test_connection (health : Except String HealthResponse) : Except String Bool :=
  match health with
  | .ok h => .ok (h.status == "ok")
  | .error _ => .ok false

/-- Whether a `WsEvent` is the `Error` variant. -/
def WsEvent.isErrorEvent : WsEvent → Bool
  | .Error _ => true
  | _ => false

/-! ## Helper lemmas -/

theorem getLast?_cons_ne {α : Type} (x : α) {l : List α} (h : l ≠ []) :
    (x :: l).getLast? = l.getLast? := by
  cases l with
  | nil => exact absurd rfl h
  | cons y ys => exact List.getLast?_cons_cons

theorem takeWhile_not_append_of_mem {l l2 : List Bool} (h : true ∈ l) :
    (l ++ l2).takeWhile (fun s => !s) = l.takeWhile (fun s => !s) := by
  induction l with
  | nil => cases h
  | cons b l ih =>
      cases b with
      | true => simp [List.takeWhile_cons]
      | false =>
          have h2 : true ∈ l := by
            rcases List.mem_cons.mp h with h1 | h1
            · simp at h1
            · exact h1
          simp [List.takeWhile_cons, ih h2]

theorem takeWhile_not_of_not_mem {l : List Bool} (h : true ∉ l) :
    l.takeWhile (fun s => !s) = l := by
  induction l with
  | nil => rfl
  | cons b l ih =>
      cases b with
      | true => exact absurd (List.mem_cons_self _ _) h
      | false =>
          have h2 : true ∉ l := fun hm => h (List.mem_cons_of_mem _ hm)
          simp [List.takeWhile_cons, ih h2]

theorem takeWhile_not_append_all_false {l l2 : List Bool} (h : true ∉ l) :
    (l ++ l2).takeWhile (fun s => !s) = l ++ l2.takeWhile (fun s => !s) := by
  induction l with
  | nil => simp
  | cons b l ih =>
      cases b with
      | true => exact absurd (List.mem_cons_self _ _) h
      | false =>
          have h2 : true ∉ l := fun hm => h (List.mem_cons_of_mem _ hm)
          simp [List.takeWhile_cons, ih h2]

theorem trailingFails_cons_of_mem (s : Bool) {rest : List Bool} (h : true ∈ rest) :
    trailingFails (s :: rest) = trailingFails rest := by
  unfold trailingFails
  rw [List.reverse_cons, takeWhile_not_append_of_mem (List.mem_reverse.mpr h)]

theorem trailingFails_true_cons {rest : List Bool} (h : true ∉ rest) :
    trailingFails (true :: rest) = rest.length := by
  unfold trailingFails
  rw [List.reverse_cons,
    takeWhile_not_append_all_false (fun hm => h (List.mem_reverse.mp hm))]
  simp

theorem min_min_mul (x c y : Nat) (hy : 1 ≤ y) :
    min (min x c * y) c = min (x * y) c := by
  rcases le_total x c with h | h
  · rw [min_eq_left h]
  · rw [min_eq_right h]
    have hc : c ≤ c * y := Nat.le_mul_of_pos_right c hy
    have hx : c ≤ x * y := le_trans h (Nat.le_mul_of_pos_right x hy)
    rw [min_eq_right hc, min_eq_right hx]

theorem delaysGo_ne_nil {b : Nat} {l : List Bool} (h : l ≠ []) : delaysGo b l ≠ [] := by
  cases l with
  | nil => exact absurd rfl h
  | cons s rest => simp [delaysGo]

/-- The last sleep of the loop run with initial backoff `b ≤ 30000`: if some
attempt opened a stream, the streak since the last such attempt determines
the delay; otherwise the doubling starts from `b`. -/
theorem delaysGo_getLast (outcomes : List Bool) :
    ∀ b : Nat, b ≤ 30000 → outcomes ≠ [] →
      (delaysGo b outcomes).getLast? =
        some (if true ∈ outcomes
          then min (1000 * 2 ^ trailingFails outcomes) 30000
          else min (b * 2 ^ (outcomes.length - 1)) 30000) := by
  induction outcomes with
  | nil => intro b _ h; exact absurd rfl h
  | cons s rest ih =>
      intro b hb _
      by_cases hr : rest = []
      · subst hr
        cases s with
        | true =>
            simp [delaysGo, loopDelay, trailingFails]
        | false =>
            simp only [delaysGo, loopDelay, if_neg Bool.false_ne_true]
            have hm : (true ∈ [false]) = False := by simp
            simp only [hm, if_false, List.length_cons, List.length_nil, List.getLast?_singleton]
            rw [pow_zero, mul_one, min_eq_left hb]
      · have hbn : loopNextBackoff b s ≤ 30000 := min_le_right _ _
        have ihr := ih (loopNextBackoff b s) hbn hr
        rw [show delaysGo b (s :: rest)
            = loopDelay b s :: delaysGo (loopNextBackoff b s) rest from rfl,
          getLast?_cons_ne _ (delaysGo_ne_nil hr), ihr]
        congr 1
        have hL : rest.length ≠ 0 := fun h0 => hr (List.length_eq_zero.mp h0)
        obtain ⟨L, hLe⟩ : ∃ L, rest.length = L + 1 := ⟨rest.length - 1, by omega⟩
        by_cases hm : true ∈ rest
        · rw [if_pos hm, if_pos (List.mem_cons_of_mem s hm), trailingFails_cons_of_mem s hm]
        · cases s with
          | true =>
              rw [if_neg hm, if_pos (List.mem_cons_self _ _), trailingFails_true_cons hm,
                hLe]
              have h2 : loopNextBackoff b true = 2000 := by
                simp [loopNextBackoff, loopDelay]
              rw [h2]
              have h3 : (2000 : Nat) * 2 ^ (L + 1 - 1) = 1000 * 2 ^ (L + 1) := by
                rw [Nat.add_sub_cancel, pow_succ]; ring
              rw [h3]
          | false =>
              have hm2 : true ∉ (false :: rest) := by
                intro hc
                rcases List.mem_cons.mp hc with h1 | h1
                · simp at h1
                · exact hm h1
              rw [if_neg hm, if_neg hm2, hLe]
              have h1 : loopNextBackoff b false = min (b * 2) 30000 := by
                simp [loopNextBackoff, loopDelay]
              rw [h1, Nat.add_sub_cancel, min_min_mul _ _ _ Nat.one_le_two_pow]
              have h3 : b * 2 * 2 ^ L = b * 2 ^ (L + 1) := by rw [pow_succ]; ring
              rw [h3]
              have h4 : (false :: rest).length - 1 = L + 1 := by
                simp [hLe]
              rw [h4]

/-- Result of the `i`-th take call, for an arbitrary starting channel state:
a `ws` call returns the currently stored `ws_rx` unless an earlier `ws` call
already took it, and symmetrically for `toast`. -/
theorem runTakes_getElem {α β : Type} (s : SvcChannels α β) (ops : List TakeOp) (i : Nat) :
    (runTakes s ops)[i]? =
      (ops[i]?).map fun op =>
        match op with
        | .ws => Sum.inl (if TakeOp.ws ∈ ops.take i then none else s.ws_rx)
        | .toast => Sum.inr (if TakeOp.toast ∈ ops.take i then none else s.toast_rx) := by
  induction ops generalizing s i with
  | nil => simp [runTakes]
  | cons op rest ih =>
      cases op with
      | ws =>
          cases i with
          | zero => simp [runTakes, take_ws_rx]
          | succ i =>
              rw [show runTakes s (.ws :: rest)
                  = .inl s.ws_rx :: runTakes ⟨none, s.toast_rx⟩ rest from rfl]
              rw [List.getElem?_cons_succ, ih, List.getElem?_cons_succ, List.take_succ_cons]
              cases hrest : rest[i]? with
              | none => simp
              | some op2 => cases op2 <;> simp [List.mem_cons]
      | toast =>
          cases i with
          | zero => simp [runTakes, take_toast_rx]
          | succ i =>
              rw [show runTakes s (.toast :: rest)
                  = .inr s.toast_rx :: runTakes ⟨s.ws_rx, none⟩ rest from rfl]
              rw [List.getElem?_cons_succ, ih, List.getElem?_cons_succ, List.take_succ_cons]
              cases hrest : rest[i]? with
              | none => simp
              | some op2 => cases op2 <;> simp [List.mem_cons]

/-- Filtering a list of agents by each of the four statuses partitions it. -/
theorem filter_status_partition (l : List AgentEntry) :
    (l.filter fun a => a.status == AgentStatus.Running).length
      + (l.filter fun a => a.status == AgentStatus.Idle).length
      + (l.filter fun a => a.status == AgentStatus.Exited).length
      + (l.filter fun a => a.status == AgentStatus.Gone).length = l.length := by
  induction l with
  | nil => rfl
  | cons a l ih =>
      cases h : a.status <;> simp [List.filter_cons, h, beq_iff_eq] <;> omega

/-- `all_agents` has as many elements as the flat agent-value list used by
`count_agents_by_status`. -/
theorem all_agents_length (m : Manifest) :
    m.all_agents.length =
      ((m.worktrees.map Prod.snd).flatMap fun wt => wt.agents.map Prod.snd).length := by
  simp [Manifest.all_agents, List.length_flatMap, List.map_map, Function.comp_def]

/-! ## Claim theorems -/

/-- C1: after N consecutive connection attempts that failed or ended without
an intervening success (`reconnectStreak outcomes = N`), the delay waited
before the Nth reconnect — the last sleep of the loop — equals
`min(1000 ms * 2 ^ (N - 1), 30000 ms)`; in particular a successful
connection (last outcome `true`, streak 1) resets the delay to 1000 ms. -/
theorem backoff_delay_before_nth_reconnect (outcomes : List Bool) (h : outcomes ≠ []) :
    (delaysOf outcomes).getLast? =
      some (min (1000 * 2 ^ (reconnectStreak outcomes - 1)) 30000) := by
  rw [delaysOf, delaysGo_getLast outcomes 1000 (by norm_num) h]
  by_cases hm : true ∈ outcomes
  · rw [if_pos hm]
    simp [reconnectStreak, hm]
  · rw [if_neg hm]
    simp [reconnectStreak, hm]

/-- C1 witness: a success followed by two failures sleeps
`min(1000 * 2^2, 30000) = 4000` ms before the third reconnect. -/
theorem backoff_delay_before_nth_reconnect_witness :
    ([true, false, false] : List Bool) ≠ [] ∧
      (delaysOf [true, false, false]).getLast? =
        some (min (1000 * 2 ^ (reconnectStreak [true, false, false] - 1)) 30000) :=
  ⟨by decide, backoff_delay_before_nth_reconnect [true, false, false] (by decide)⟩

/-- C2 counterexample: when an open stream ends by a transport-level error,
the events of that iteration are `[Connected, Disconnected]` — no `Error`
event at all, contrary to the claim that `Error(description)` is emitted. -/
theorem transport_error_emits_no_error_event :
    iterEvents (.opened [.transportErr "broken pipe"]) = [.Connected, .Disconnected] ∧
      (iterEvents (.opened [.transportErr "broken pipe"])).all
        (fun e => ! e.isErrorEvent) = true := by
  exact ⟨rfl, rfl⟩

/-- C2 (amended): whenever an open stream ends — by close frame, transport
error, or stream exhaustion — the manager emits `Disconnected` (a transport
error is only logged; `Error` is emitted only for a failed connection
attempt); in either case the read loop exits at that item, and if the run
flag is still set the manager sleeps the current backoff delay (1000 ms
after the success reset) before reconnecting, and skips the sleep when the
flag is cleared. -/
theorem stream_end_always_disconnected (backoff_ms : Nat) (msgs rest : List WsMessage)
    (desc : String) :
    (iterEvents (.opened msgs)).getLast? = some .Disconnected ∧
      readLoop (.transportErr desc :: rest) = ⟨[], 0, .errored desc⟩ ∧
      readLoop (.close :: rest) = ⟨[], 0, .closedByServer⟩ ∧
      iterEvents (.connectFailed desc) = [.Error ("Connection failed: " ++ desc)] ∧
      loopIter backoff_ms (.opened msgs) true = (iterEvents (.opened msgs), some 1000, 2000) ∧
      loopIter backoff_ms (.opened msgs) false = (iterEvents (.opened msgs), none, 1000) := by
  refine ⟨?_, rfl, rfl, rfl, ?_, ?_⟩
  · rw [iterEvents, List.getLast?_concat]
  · simp [loopIter, loopDelay, loopNextBackoff, AttemptOutcome.success]
  · simp [loopIter, loopDelay, AttemptOutcome.success]

/-- C3: a text frame whose payload fails to decode logs one warning, emits no
domain event of its own, and leaves the rest of the loop unchanged; inserting
a malformed frame anywhere in the inbound sequence never changes the emitted
events or how the read loop ends (in particular it never terminates it). -/
theorem decode_failure_skipped_nonfatal (pre rest : List WsMessage) :
    readLoop (.text none :: rest) =
        ⟨(readLoop rest).events, (readLoop rest).warnings + 1, (readLoop rest).ending⟩ ∧
      (readLoop (pre ++ .text none :: rest)).events = (readLoop (pre ++ rest)).events ∧
      (readLoop (pre ++ .text none :: rest)).ending = (readLoop (pre ++ rest)).ending := by
  have key : ∀ pre : List WsMessage,
      (readLoop (pre ++ .text none :: rest)).events = (readLoop (pre ++ rest)).events ∧
        (readLoop (pre ++ .text none :: rest)).ending = (readLoop (pre ++ rest)).ending := by
    intro pre
    induction pre with
    | nil => exact ⟨rfl, rfl⟩
    | cons m pre ih =>
        cases m with
        | text d =>
            cases d with
            | none => simpa [readLoop] using ih
            | some ev => simpa [readLoop] using ih
        | ping d => simpa [readLoop] using ih
        | close => exact ⟨rfl, rfl⟩
        | binaryOrOther => simpa [readLoop] using ih
        | transportErr d => exact ⟨rfl, rfl⟩
  exact ⟨rfl, (key pre).1, (key pre).2⟩

/-- C4 (code bug): one tick of the 30-second keepalive task sends no
outbound frame whatsoever — it only polls the run flag — even though its own
comment says `Ping keepalive every 30s` and `ClientCommand::Ping` exists
(as dead code). The spec's claim that a liveness probe is sent every 30 time
units is therefore not what the code does. -/
theorem ping_task_tick_sends_no_frame (running : Bool) :
    (pingTaskTick running).1 = none ∧ (pingTaskTick running).2 = running ∧
      ping_interval_secs = 30 :=
  ⟨rfl, rfl, rfl⟩

/-- C5: an inbound `error` frame with code `c` and message `m` emits exactly
the single domain event `Error ("c: m")` and the read loop continues with the
subsequent frames, ending however they end. -/
theorem error_frame_formats_code_message (code message : String) (rest : List WsMessage) :
    readLoop (.text (some (.Error code message)) :: rest) =
      ⟨.Error (code ++ ": " ++ message) :: (readLoop rest).events,
        (readLoop rest).warnings, (readLoop rest).ending⟩ :=
  rfl

/-- C6: starting from the fresh `Services` state (both receivers present),
the `i`-th take call returns the receiver exactly when no earlier call of the
same kind occurs in the sequence, whatever the order and number of calls. -/
theorem take_rx_at_most_once {α β : Type} (a : α) (b : β) (ops : List TakeOp) (i : Nat) :
    (runTakes (⟨some a, some b⟩ : SvcChannels α β) ops)[i]? =
      (ops[i]?).map fun op =>
        match op with
        | .ws => Sum.inl (if TakeOp.ws ∈ ops.take i then none else some a)
        | .toast => Sum.inr (if TakeOp.toast ∈ ops.take i then none else some b) :=
  runTakes_getElem ⟨some a, some b⟩ ops i

/-- C7: `set_manifest m` followed by `manifest()` returns `some m`, the exact
value that was set, for every prior state. -/
theorem set_manifest_read_back (s : AppStateInner) (m : Manifest) :
    AppState.manifest (AppState.set_manifest s m) = some m :=
  rfl

/-- C8 counterexample: for a base address containing `http://` beyond its
scheme, the URL built by `WsManager::connect` (which uses `str::replace`,
replacing every occurrence) differs from the claim's scheme-only
replacement. -/
theorem connect_url_not_scheme_only :
    connectUrl ("http://h/a?u=http://x".toList) none ≠
      streamUrlClaim ("http://h/a?u=http://x".toList) none := by
  decide

/-- C8 (amended): the stream URL is the base address with every occurrence of
`http://` replaced by `ws://` and then every occurrence of `https://` by
`wss://` (for base addresses whose only scheme substring is the leading one,
this is the claimed scheme upgrade, as the default server URL shows),
trailing slashes trimmed, `/api/events` appended, and `?token=<credential>`
appended exactly when a credential is configured. -/
theorem connect_url_replace_all (base_url t : List Char) :
    connectUrl base_url (some t) =
        trim_end_matches_slash
          (replaceAll ("https://".toList) ("wss://".toList)
            (replaceAll ("http://".toList) ("ws://".toList) base_url))
          ++ "/api/events".toList ++ "?token=".toList ++ t ∧
      connectUrl base_url none =
        trim_end_matches_slash
          (replaceAll ("https://".toList) ("wss://".toList)
            (replaceAll ("http://".toList) ("ws://".toList) base_url))
          ++ "/api/events".toList ∧
      connectUrl ("http://localhost:3000".toList) (some t) =
        streamUrlClaim ("http://localhost:3000".toList) (some t) ∧
      connectUrl ("https://example.com//".toList) none =
        streamUrlClaim ("https://example.com//".toList) none := by
  refine ⟨rfl, rfl, ?_, by decide⟩
  rw [show connectUrl ("http://localhost:3000".toList) (some t)
      = "ws://localhost:3000/api/events?token=".toList ++ t by rfl]
  rw [show streamUrlClaim ("http://localhost:3000".toList) (some t)
      = "ws://localhost:3000/api/events?token=".toList ++ t by rfl]

/-- C9: `test_connection` never returns an error value: it returns `Ok b`
for every health outcome, with `b = true` exactly when the health call
succeeded with status string "ok". -/
theorem test_connection_never_errors (health : Except String HealthResponse) :
    (∃ b, test_connection health = .ok b) ∧
      (test_connection health = .ok true ↔ ∃ h, health = .ok h ∧ h.status = "ok") := by
  cases health with
  | ok h => simp [test_connection]
  | error e => simp [test_connection]

/-- C10: the per-status agent counts for the four agent statuses sum to the
number of agents returned by `all_agents`: every agent is counted under
exactly one status. -/
theorem agent_status_counts_partition (m : Manifest) :
    m.count_agents_by_status .Running + m.count_agents_by_status .Idle
      + m.count_agents_by_status .Exited + m.count_agents_by_status .Gone
      = m.all_agents.length := by
  rw [all_agents_length]
  exact filter_status_partition ((m.worktrees.map Prod.snd).flatMap fun wt =>
    wt.agents.map Prod.snd)

end Ppg
